import Mathlib

/-!
Verification development for the `model` persistence layer
(`pkg/inventory/model`): a metadata-driven object-relational mapper over
SQLite.  The Go source is shallowly embedded: each `Field` carries a live
value cell and two staging cells (one int64, one string); the table
operations are modeled as pure functions over a record together with a
driver oracle supplying the outcome of each `Exec`/`QueryRow` call (the
embedded SQL engine is out of scope for the layer, so its replies are
universally quantified).  Machine integers are modeled as `Int`/`Nat`
with explicit reductions modulo 2^32 / 2^64 where the Go code overflows.
-/

namespace Model

/-! ## Tag option parsing (`Field.hasOpt`, `strings.Split` + `TrimSpace`) -/

/-- `strings.Split(tag, ",")`. -/
def splitCommaAux : List Char → List Char → List String
  | [], cur => [String.mk cur.reverse]
  | c :: rest, cur =>
      if c = ',' then String.mk cur.reverse :: splitCommaAux rest []
      else splitCommaAux rest (c :: cur)

def splitComma (s : String) : List String := splitCommaAux s.toList []

def isSpaceChar (c : Char) : Bool :=
  c = ' ' ∨ c = '\t' ∨ c = '\n' ∨ c = '\r'

/-- `strings.TrimSpace` (over the whitespace occurring in tags). -/
def trimStr (s : String) : String :=
  String.mk (((s.toList.dropWhile isSpaceChar).reverse.dropWhile isSpaceChar).reverse)

/-- `hasOpt` of the Go source: split the tag on commas, trim each option,
exact match. -/
def hasOpt (tag name : String) : Bool :=
  (splitComma tag).any (fun opt => trimStr opt == name)

/-! ## Field categories and values -/

/-- Category of a field's live cell, collapsing the Go `reflect.Kind`
groups exactly as the source's switch statements do: all signed integer
widths share the int64 staging cell, and struct/slice/map are the
JSON-encoded composites. -/
inductive Kind where
  | kstr
  | kint
  | kbool
  | kjson
deriving DecidableEq, Repr

/-- A live cell value.  Composites (struct / slice / map) are modeled by
their canonical JSON text (`json.Marshal` output); a `none` payload for
slice / map is Go `nil`. -/
inductive Value where
  | vstr (s : String)
  | vint (n : Int)
  | vbool (b : Bool)
  | vstruct (j : String)
  | vslice (j : Option String)
  | vmap (j : Option String)
deriving DecidableEq, Repr

def kindOf : Value → Kind
  | .vstr _ => .kstr
  | .vint _ => .kint
  | .vbool _ => .kbool
  | .vstruct _ => .kjson
  | .vslice _ => .kjson
  | .vmap _ => .kjson

/-- The `Field` struct of the source: name, sql tag, live value
(`Value *reflect.Value`), the two staging cells, and the `isParam`
marker. -/
structure Field where
  name : String
  tag : String
  live : Value
  stagingStr : String
  stagingInt : Int
  isParam : Bool
deriving DecidableEq, Repr

def Field.kind (f : Field) : Kind := kindOf f.live

def Field.isPk (f : Field) : Bool := hasOpt f.tag "pk"

def Field.isKey (f : Field) : Bool := hasOpt f.tag "key"

def Field.isVirtual (f : Field) : Bool := hasOpt f.tag "virtual"

def Field.isMutable (f : Field) : Bool :=
  if f.isPk || f.isKey || f.isVirtual then false else !(hasOpt f.tag "const")

/-- `Field.Pull`: populate the staging cell from the live cell.
Note the Go source's bool branch sets `f.int = 1` only when the value is
`true`; there is no `else`, so a `false` value leaves the staging int
unchanged. -/
def Field.pull (f : Field) : Field :=
  match f.live with
  | .vstruct j => { f with stagingStr := j }
  | .vslice j => { f with stagingStr := j.getD "[]" }
  | .vmap j => { f with stagingStr := j.getD "\x7b\x7d" }
  | .vstr s => { f with stagingStr := s }
  | .vbool b => if b then { f with stagingInt := 1 } else f
  | .vint n => { f with stagingInt := n }

/-- `Field.Push`: write the staging cell back into the live cell.  For
composites an empty staging string leaves the cell untouched
(`json.Unmarshal` of the staged text is modeled as succeeding, restoring
the encoded value). -/
def Field.push (f : Field) : Field :=
  match f.live with
  | .vstruct _ =>
      if f.stagingStr = "" then f else { f with live := .vstruct f.stagingStr }
  | .vslice _ =>
      if f.stagingStr = "" then f else { f with live := .vslice (some f.stagingStr) }
  | .vmap _ =>
      if f.stagingStr = "" then f else { f with live := .vmap (some f.stagingStr) }
  | .vstr _ => { f with live := .vstr f.stagingStr }
  | .vbool _ => { f with live := .vbool (f.stagingInt != 0) }
  | .vint _ => { f with live := .vint f.stagingInt }

/-- `Field.Ptr`: bool / int categories scan into the int staging cell,
everything else into the string staging cell. -/
def Field.ptrIsInt (f : Field) : Bool :=
  match f.kind with
  | .kbool => true
  | .kint => true
  | _ => false

/-! ## Records (`Table.Fields` on a flat tagged struct)

A record is modeled as its ordered list of tagged attributes; deriving
fields (`Table.Fields`) creates fresh `Field` descriptors whose staging
cells are zero-valued, exactly as the Go struct literal
`&Field{Tag: sqlTag, Name: ft.Name, Value: &fv}` does. -/

structure Attr where
  name : String
  tag : String
  val : Value
deriving DecidableEq, Repr

structure Rec where
  name : String
  attrs : List Attr
deriving DecidableEq, Repr

def mkField (a : Attr) : Field :=
  { name := a.name, tag := a.tag, live := a.val
    stagingStr := "", stagingInt := 0, isParam := false }

def mkFields (r : Rec) : List Field := r.attrs.map mkField

/-! ## SHA-1 (crypto/sha1), big-endian encoding (encoding/binary),
hex (encoding/hex), and UTF-8 bytes

All byte sequences are `List Nat` with each element `< 256`; all 32-bit
words are `Nat` reduced modulo `2^32`. -/

def w32 (n : Nat) : Nat := n % 4294967296

def rotl32 (b n : Nat) : Nat := w32 ((n <<< b) ||| (n >>> (32 - b)))

/-- Big-endian bytes of a 32-bit word. -/
def beBytes4 (n : Nat) : List Nat :=
  [n >>> 24 % 256, n >>> 16 % 256, n >>> 8 % 256, n % 256]

/-- Big-endian bytes of a 64-bit word. -/
def beBytes8 (n : Nat) : List Nat :=
  [n >>> 56 % 256, n >>> 48 % 256, n >>> 40 % 256, n >>> 32 % 256,
   n >>> 24 % 256, n >>> 16 % 256, n >>> 8 % 256, n % 256]

/-- `binary.Write(bfr, binary.BigEndian, f.int)` for an `int64`:
big-endian two's-complement bytes. -/
def int64Bytes (n : Int) : List Nat :=
  beBytes8 (n % 18446744073709551616).toNat

/-- Big-endian 32-bit words from a byte stream. -/
def beWords : List Nat → List Nat
  | a :: b :: c :: d :: rest => (((a * 256 + b) * 256 + c) * 256 + d) :: beWords rest
  | _ => []

/-- Split a byte stream into 64-byte blocks (fuel-structured so the
kernel can evaluate it; `l.length` steps always suffice since every
step consumes at least one byte). -/
def chunks64Aux : Nat → List Nat → List (List Nat)
  | 0, _ => []
  | _, [] => []
  | Nat.succ fuel, l => l.take 64 :: chunks64Aux fuel (l.drop 64)

def chunks64 (l : List Nat) : List (List Nat) := chunks64Aux l.length l

/-- Extend 16 message words to 80 (the `w[i-3]^w[i-8]^w[i-14]^w[i-16]
rol 1` schedule). -/
def sha1Extend (ws : List Nat) : Array Nat :=
  (List.range 64).foldl
    (fun a _ =>
      let j := a.size
      a.push (rotl32 1 ((a[j-3]!) ^^^ (a[j-8]!) ^^^ (a[j-14]!) ^^^ (a[j-16]!))))
    ws.toArray

def sha1F (t b c d : Nat) : Nat :=
  if t < 20 then (b &&& c) ||| ((b ^^^ 4294967295) &&& d)
  else if t < 40 then b ^^^ c ^^^ d
  else if t < 60 then (b &&& c) ||| (b &&& d) ||| (c &&& d)
  else b ^^^ c ^^^ d

def sha1K (t : Nat) : Nat :=
  if t < 20 then 1518500249
  else if t < 40 then 1859775393
  else if t < 60 then 2400959708
  else 3395469782

/-- One SHA-1 compression round over the five-word state. -/
def sha1Round (w : Array Nat) (st : Nat × Nat × Nat × Nat × Nat) (t : Nat) :
    Nat × Nat × Nat × Nat × Nat :=
  match st with
  | (a, b, c, d, e) =>
    let tmp := w32 (rotl32 5 a + sha1F t b c d + e + sha1K t + w[t]!)
    (tmp, a, rotl32 30 b, c, d)

/-- Compress one 64-byte block into the running state. -/
def sha1Block (h : List Nat) (block : List Nat) : List Nat :=
  let w := sha1Extend (beWords block)
  match h with
  | [h0, h1, h2, h3, h4] =>
    match (List.range 80).foldl (sha1Round w) (h0, h1, h2, h3, h4) with
    | (a, b, c, d, e) =>
        [w32 (h0 + a), w32 (h1 + b), w32 (h2 + c), w32 (h3 + d), w32 (h4 + e)]
  | _ => h

/-- Merkle-Damgard padding: `0x80`, zeros to 56 mod 64, then the 64-bit
big-endian bit length. -/
def sha1Pad (msg : List Nat) : List Nat :=
  msg ++ [128] ++ List.replicate ((119 - msg.length % 64) % 64) 0
      ++ beBytes8 (msg.length * 8)

/-- SHA-1 digest (20 bytes) of a byte stream. -/
def sha1 (msg : List Nat) : List Nat :=
  ((chunks64 (sha1Pad msg)).foldl sha1Block
      [1732584193, 4023233417, 2562383102, 271733878, 3285377520]).foldr
    (fun x acc => beBytes4 x ++ acc) []

def hexChar (n : Nat) : Char := "0123456789abcdef".toList.getD n 'x'

/-- `hex.EncodeToString`: lowercase hexadecimal text of a byte stream. -/
def hexStr (bytes : List Nat) : String :=
  String.mk ((bytes.map (fun b => [hexChar (b / 16), hexChar (b % 16)])).flatten)

/-- UTF-8 encoding of one character. -/
def utf8Char (c : Char) : List Nat :=
  let n := c.toNat
  if n < 128 then [n]
  else if n < 2048 then [192 + n / 64, 128 + n % 64]
  else if n < 65536 then [224 + n / 4096, 128 + (n / 64) % 64, 128 + n % 64]
  else [240 + n / 262144, 128 + (n / 4096) % 64, 128 + (n / 64) % 64, 128 + n % 64]

/-- UTF-8 bytes of a string (`[]byte(s)` in Go). -/
def utf8Bytes (s : String) : List Nat := (s.toList.map utf8Char).flatten

/-! ## PK synthesis (`Table.SetPk`)

Go mutates the `*Field` structs through pointers; the embedding models
each mutation as the replacement of the corresponding element of the
field list. -/

/-- An error the database driver can return.  `sqlite3` carries the
`sqlite3.Error` code and extended code (constraint violations have code
`19 = sqlite3.ErrConstraint`; the extended code tells the violated
constraint apart: 1555 = PRIMARYKEY, 2067 = UNIQUE); `other` is any
non-sqlite3 error. -/
inductive GoError where
  | sqlite3 (code : Nat) (extended : Nat)
  | other (msg : String)
deriving DecidableEq, Repr

/-- Error kinds of the layer (the `errors.New` values plus the
template-render failure of `text/template` when `.Pk` is nil). -/
inductive OpError where
  | mustHavePk
  | pkType
  | genPkType
  | notFound
  | fieldType
  | predicateRef
  | predicateType
  | predicateValue
  | template
  | wrapped (e : GoError)
deriving DecidableEq, Repr

/-- `Table.PkField`: first field carrying the `pk` option. -/
def findPk : List Field → Option Field
  | [] => none
  | f :: rest => if f.isPk then some f else findPk rest

/-- Replace the first `pk`-tagged field (the element Go mutates through
the `pk` pointer). -/
def updPk : List Field → Field → List Field
  | [], _ => []
  | f :: rest, x => if f.isPk then x :: rest else f :: updPk rest x

/-- The in-place `f.Pull()` of the `SetPk` loop, applied to key fields
only (pulls of distinct fields are independent, so the loop is modeled
as a map). -/
def pullIfKey (f : Field) : Field := if f.isKey then f.pull else f

/-- Bytes one (already pulled) key field feeds into the SHA-1 hash:
STRING writes the staged UTF-8 text, BOOL and the int kinds write the
big-endian 8 bytes of the staged int64; the (invariant-excluded)
composite kinds match no case of the Go switch and write nothing. -/
def keyContrib (f : Field) : List Nat :=
  match f.kind with
  | .kstr => utf8Bytes f.stagingStr
  | .kbool => int64Bytes f.stagingInt
  | .kint => int64Bytes f.stagingInt
  | _ => []

/-- The byte stream the `SetPk` loop feeds to `h.Write`, accumulated over
the key fields in declaration order (streaming into SHA-1 equals hashing
the concatenation). -/
def hashInput (fields : List Field) : List Nat :=
  (fields.filter Field.isKey).foldl (fun acc f => acc ++ keyContrib f) []

/-- `Table.SetPk`: when a pk field exists and is a string whose pulled
value is empty, pull every key field, hash the key bytes, store the hex
digest in the pk staging cell and push it into the live cell.  A
non-string pk returns `GenPkTypeErr` (wrapped). -/
def setPkGo (fields : List Field) : Except OpError (List Field) :=
  match findPk fields with
  | none => .ok fields
  | some pk =>
    match pk.kind with
    | Kind.kstr =>
      let pk1 := pk.pull
      let fields1 := updPk fields pk1
      if pk1.stagingStr ≠ "" then .ok fields1
      else
        let fields2 := fields1.map pullIfKey
        let digest := hexStr (sha1 (hashInput fields2))
        match findPk fields2 with
        | none => .ok fields2
        | some pk2 => .ok (updPk fields2 ({ pk2 with stagingStr := digest }).push)
    | _ => .error OpError.genPkType

/-- The field list the table operations actually continue with: the Go
call sites (`Insert`/`Update`/`Delete`/`Get`) invoke `t.SetPk(fields)`
and discard its error, so on the error path the fields are whatever was
mutated before the error return (nothing). -/
def fieldsAfterSetPk (fields : List Field) : List Field :=
  match setPkGo fields with
  | .ok fs => fs
  | .error _ => fields

/-! ### Spec-side formulation of the pk digest (for the refinement
statement of claim C1)

Modelled from the spec: "For each key field, Pull its value, then feed
to a SHA-1 hash: STRING → UTF-8 bytes; INT/BOOL → big-endian 8-byte
encoding of the 64-bit staging cell", as a direct function of the
record's key values (a freshly derived field's staging starts at zero,
so a false boolean stages 0 and a true one stages 1). -/

def specContribV : Value → List Nat
  | .vstr s => utf8Bytes s
  | .vint n => int64Bytes n
  | .vbool b => int64Bytes (if b then 1 else 0)
  | _ => []

/-- The values of the `key`-tagged attributes, in declaration order. -/
def keyVals (r : Rec) : List Value :=
  (r.attrs.filter (fun a => hasOpt a.tag "key")).map Attr.val

/-- Spec-level hash input: concatenation of each key value's
contribution, in declaration order. -/
def specInput (r : Rec) : List Nat := ((keyVals r).map specContribV).flatten

/-- Spec-level synthesized primary key: lowercase hex SHA-1 digest of
the key bytes. -/
def specPk (r : Rec) : String := hexStr (sha1 (specInput r))

/-! ## Table operations (`Table.Insert/Update/Delete/Get`, `Table.scan`)

The SQL engine is an external collaborator; each operation's driver
calls are abstracted by an oracle giving the reply of the corresponding
`Exec`/`QueryRow`.  The rendered statement text and the bound parameters
do not influence the layer's own control flow, which is what the claims
are about. -/

deriving instance DecidableEq for Except

/-- The `sql.Result` of a successful `Exec`: `RowsAffected` may itself
fail. -/
structure ExecResult where
  rowsAffected : Except GoError Int
deriving DecidableEq, Repr

/-- One column cell as written by the driver through the scan pointer. -/
inductive Cell where
  | ci (n : Int)
  | cs (s : String)
deriving DecidableEq, Repr

def Cell.asInt : Cell → Int
  | .ci n => n
  | .cs _ => 0

def Cell.asStr : Cell → String
  | .ci _ => ""
  | .cs s => s

/-- Replies of the database driver for one operation. -/
structure DBOracle where
  execInsert : Except GoError ExecResult
  execUpdate : Except GoError ExecResult
  execDelete : Except GoError ExecResult
  getRow : Except GoError (List Cell)
deriving DecidableEq, Repr

/-- The `err.(sqlite3.Error)` type assertion followed by
`sql3Err.Code == sqlite3.ErrConstraint` (code 19).  Only the primary
code is inspected; the extended code (which distinguishes a PRIMARY KEY
collision from a UNIQUE collision) is not. -/
def isConstraintErr : GoError → Bool
  | .sqlite3 code _ => code == 19
  | .other _ => false

/-- `Table.Update`.  `t.SetPk(fields)`'s error is discarded; rendering
`UpdateSQL` fails when the model has no pk field (`{{ .Pk.Name }}` on a
nil `*Field`); zero affected rows yield wrapped `NotFound`. -/
def updateOp (db : DBOracle) (r : Rec) : Except OpError Unit :=
  let fields := fieldsAfterSetPk (mkFields r)
  match findPk fields with
  | none => .error OpError.template
  | some _ =>
    match db.execUpdate with
    | .error e => .error (OpError.wrapped e)
    | .ok res =>
      match res.rowsAffected with
      | .error e => .error (OpError.wrapped e)
      | .ok n => if n = 0 then .error OpError.notFound else .ok ()

/-- `Table.Insert`.  `t.SetPk(fields)`'s error is discarded.  On an exec
error that casts to `sqlite3.Error` with `Code == ErrConstraint` the
operation retries as `t.Update(model)`; the retry re-derives fields from
the same model, and because the synthesized pk is a deterministic
function of the unchanged key values, updating the pushed model
coincides with `updateOp` on the original record.  Any other exec error
is returned wrapped. -/
def insertOp (db : DBOracle) (r : Rec) : Except OpError Unit :=
  let _fields := fieldsAfterSetPk (mkFields r)
  match db.execInsert with
  | .error e =>
      if isConstraintErr e then updateOp db r else .error (OpError.wrapped e)
  | .ok res =>
    match res.rowsAffected with
    | .error e => .error (OpError.wrapped e)
    | .ok _ => .ok ()

/-- `Table.Delete`.  Zero affected rows return success. -/
def deleteOp (db : DBOracle) (r : Rec) : Except OpError Unit :=
  let fields := fieldsAfterSetPk (mkFields r)
  match findPk fields with
  | none => .error OpError.template
  | some _ =>
    match db.execDelete with
    | .error e => .error (OpError.wrapped e)
    | .ok res =>
      match res.rowsAffected with
      | .error e => .error (OpError.wrapped e)
      | .ok _ => .ok ()

/-- The driver writing one scanned column through the pointer returned
by `Field.Ptr` (into the staging cell matching the field's category). -/
def cellWrite (f : Field) (c : Cell) : Field :=
  if f.ptrIsInt then { f with stagingInt := c.asInt }
  else { f with stagingStr := c.asStr }

/-- `Table.scan`: pull every field (collecting the staging pointers),
let the driver scan; only when `Scan` succeeds are the staged values
pushed back into the live cells.  Returns the updated field list and the
(wrapped) scan error, mirroring the in-place mutation of the Go code. -/
def scanOp (fields : List Field) (row : Except GoError (List Cell)) :
    List Field × Option GoError :=
  let pulled := fields.map Field.pull
  match row with
  | .error e => (pulled, some e)
  | .ok cells => ((List.zipWith cellWrite pulled cells).map Field.push, none)

/-- `Table.Get`: render `GetSQL` (fails without a pk field), query the
row, scan it into the model. -/
def getOp (db : DBOracle) (r : Rec) : Except OpError (List Field) :=
  let fields := fieldsAfterSetPk (mkFields r)
  match findPk fields with
  | none => .error OpError.template
  | some _ =>
    match scanOp fields db.getRow with
    | (fs, none) => .ok fs
    | (_, some e) => .error (OpError.wrapped e)

/-! ## Client transactions (`Client.commit`, `Client.rollback`)

The client state tracked by the claims: the in-flight transaction
(`r.tx`, identified by the token returned from `Begin`) and whether the
writer mutex is held.  The state lock is a short critical section around
each entry point and is re-released on every path; it carries no
observable state of its own. -/

structure ClientState where
  tx : Option Nat
  writerLocked : Bool
deriving DecidableEq, Repr

/-- Result of `commit`/`rollback`: `TxInvalidError`, or the underlying
`sql.Tx.Commit`/`Rollback` error returned unwrapped. -/
inductive TxErr where
  | txInvalid
  | driver (e : GoError)
deriving DecidableEq, Repr

/-- `Client.commit`: reject a token that is not the current in-flight
transaction; otherwise release the writer lock and clear the
transaction (deferred), returning `r.tx.Commit()`'s result as-is. -/
def commitOp (st : ClientState) (tok : Nat) (res : Except GoError Unit) :
    Except TxErr Unit × ClientState :=
  match st.tx with
  | none => (.error TxErr.txInvalid, st)
  | some cur =>
    if cur = tok then
      (res.mapError TxErr.driver, { tx := none, writerLocked := false })
    else (.error TxErr.txInvalid, st)

/-- `Client.rollback`: same validation and lock discipline as
`Client.commit`, with `r.tx.Rollback()`'s result surfaced. -/
def rollbackOp (st : ClientState) (tok : Nat) (res : Except GoError Unit) :
    Except TxErr Unit × ClientState :=
  match st.tx with
  | none => (.error TxErr.txInvalid, st)
  | some cur =>
    if cur = tok then
      (res.mapError TxErr.driver, { tx := none, writerLocked := false })
    else (.error TxErr.txInvalid, st)

/-! ## Constraint extraction (`Table.Constraints`, `Field.Unique`,
`Field.Fk`) and DDL (`Table.DDL`)

`UniqueRegex` and `FkRegex` are unanchored with greedy `.+` groups; the
match functions below model `FindStringSubmatch`: leftmost start of the
literal prefix, capture running to the last closing parenthesis,
captures nonempty. -/

/-- Remainder of `s` after the leftmost occurrence of `pat`. -/
def findSub (pat : List Char) : List Char → Option (List Char)
  | [] => if pat.isEmpty then some [] else none
  | c :: rest =>
      if pat.isPrefixOf (c :: rest) then some ((c :: rest).drop pat.length)
      else findSub pat rest

/-- Match `(unique)(\()(.+)(\))` against one trimmed tag option and
return the group label. -/
def uniqueMatch (opt : String) : Option String :=
  match findSub "unique(".toList opt.toList with
  | none => none
  | some rest =>
    match rest.reverse.findIdx? (fun c => c == ')') with
    | none => none
    | some i =>
      let cap := rest.take (rest.length - 1 - i)
      if cap.isEmpty then none else some (String.mk cap)

def listIdxs (p : Char → Bool) (cs : List Char) : List Nat :=
  (List.range cs.length).filter (fun i => p (cs.getD i ' '))

/-- Match the `(.+)(\()(.+)(\))` tail of `FkRegex`: the greedy first
group runs to the last feasible `(`, the second to the last `)`. -/
def fkParens (rest : List Char) : Option (String × String) :=
  ((listIdxs (fun c => c == '(') rest).reverse).findSome? (fun p =>
    if p = 0 then none
    else
      let tail := rest.drop (p + 1)
      match tail.reverse.findIdx? (fun c => c == ')') with
      | none => none
      | some i =>
        let j := tail.length - 1 - i
        if j = 0 then none
        else some (String.mk (rest.take p), String.mk (tail.take j)))

/-- Match `(fk):(.+)(\()(.+)(\))` against one trimmed tag option,
returning (table, field). -/
def fkMatch (opt : String) : Option (String × String) :=
  match findSub "fk:".toList opt.toList with
  | none => none
  | some rest => fkParens rest

/-- `Field.Unique`: every `unique(G)` group label in the tag, in option
order. -/
def Field.uniqueOpts (f : Field) : List String :=
  (splitComma f.tag).filterMap (fun opt => uniqueMatch (trimStr opt))

/-- `Field.Fk`: the first `fk:T(F)` option, if any. -/
def Field.fkOpt (f : Field) : Option (String × String) :=
  (splitComma f.tag).findSome? (fun opt => fkMatch (trimStr opt))

/-- `FK.DDL`. -/
def fkDDL (f : Field) (table fld : String) : String :=
  "FOREIGN KEY (" ++ f.name ++ ") REFERENCES " ++ table ++ " (" ++ fld
    ++ ") ON DELETE CASCADE"

/-- One insertion into the Go `map[string][]string`, keeping keys in
first-discovery order and appending to an existing key's list. -/
def mapAdd (m : List (String × List String)) (k v : String) :
    List (String × List String) :=
  match m with
  | [] => [(k, [v])]
  | (k', l) :: rest =>
      if k' = k then (k', l ++ [v]) :: rest else (k', l) :: mapAdd rest k v

/-- The `unique` map built by `Table.Constraints`'s first loop. -/
def uniqueMap (fields : List Field) : List (String × List String) :=
  fields.foldl (fun m f => f.uniqueOpts.foldl (fun m g => mapAdd m g f.name) m) []

/-- The key set of the `unique` map, in first-discovery order. -/
def uniqueKeys (fields : List Field) : List String :=
  (uniqueMap fields).map Prod.fst

/-- `Table.Constraints`.  Go iterates the `unique` map with `range`,
whose order is unspecified and randomized between runs; the model makes
that order an explicit parameter, admissible when it is a permutation of
the map's keys.  FK clauses follow in field order. -/
def constraintsGo (fields : List Field) (order : List String) : List String :=
  (order.filterMap (fun k =>
      ((uniqueMap fields).lookup k).map (fun l =>
        "UNIQUE (" ++ String.intercalate "," l ++ ")")))
    ++ fields.filterMap (fun f => f.fkOpt.map (fun tf => fkDDL f tf.1 tf.2))

/-- `Field.DDL`: `name TYPE CONSTRAINT`. -/
def Field.colDDL (f : Field) : String :=
  let ty := match f.kind with
    | Kind.kbool => "INTEGER"
    | Kind.kint => "INTEGER"
    | _ => "TEXT"
  let cons := if f.isPk then "PRIMARY KEY" else "NOT NULL"
  f.name ++ " " ++ ty ++ " " ++ cons

/-- `Table.RealFields`: non-virtual fields. -/
def realFields (fields : List Field) : List Field :=
  fields.filter (fun f => !f.isVirtual)

/-- `Table.KeyFields`. -/
def keyFieldsGo (fields : List Field) : List Field :=
  fields.filter Field.isKey

/-- `Field.Validate`: only string and int kinds may carry `pk` (the bool
and composite kinds fall to the default case). -/
def Field.validate (f : Field) : Option OpError :=
  match f.kind with
  | Kind.kstr => none
  | Kind.kint => none
  | _ => if f.isPk then some OpError.pkType else none

/-- `Table.Validate`: first field error, else `MustHavePkErr` when no pk
field exists. -/
def validateGo (fs : List Field) : Option OpError :=
  match fs.findSome? Field.validate with
  | some e => some e
  | none => if (findPk fs).isSome then none else some OpError.mustHavePk

/-- Column block of the `TableDDL` template: first column bare, later
ones comma-prefixed, one per line. -/
def colLines : List String → String
  | [] => ""
  | c :: cs => c ++ "\n" ++ String.join (cs.map (fun s => "," ++ s ++ "\n"))

/-- The rendered `TableDDL` template. -/
def tableDDLstr (table : String) (cols : List Field) (cons : List String) : String :=
  "\nCREATE TABLE IF NOT EXISTS " ++ table ++ " (\n"
    ++ colLines (cols.map Field.colDDL)
    ++ String.join (cons.map (fun c => "," ++ c ++ "\n"))
    ++ ");\n"

/-- The rendered `IndexDDL` template. -/
def indexDDLstr (table : String) (keyfs : List Field) : String :=
  "\nCREATE INDEX IF NOT EXISTS " ++ table ++ "Index\nON " ++ table ++ "\n(\n"
    ++ colLines (keyfs.map Field.name)
    ++ ");\n"

/-- `Table.DDL`: validate, render the table DDL (columns from
`RealFields`, then constraints), and the key index when key fields
exist.  `order` is the iteration order of the `unique` map. -/
def ddlGo (r : Rec) (order : List String) : Except OpError (List String) :=
  let fields := mkFields r
  match validateGo fields with
  | some e => .error e
  | none =>
    let tbl := tableDDLstr r.name (realFields fields) (constraintsGo fields order)
    let keys := keyFieldsGo fields
    if keys.isEmpty then .ok [tbl]
    else .ok [tbl, indexDDLstr r.name (realFields keys)]

/-! ## Literal coercion (`Field.AsValue`)

`strconv` behavior is modeled from the Go standard library: `ParseInt`
with base 0 (auto-detected prefix; digit-separator underscores are not
modeled, no claim involves them) returning the clamped value and an
ok-flag, `ParseBool`'s fixed token set, and `FormatInt`, which panics
for a base outside 2..36. -/

/-- A predicate literal (`object interface{}`). -/
inductive Lit where
  | lstr (s : String)
  | lint (n : Int)
  | lbool (b : Bool)
  | lstruct
  | lslice
  | lmap
  | lptr (v : Lit)
  | lother
deriving DecidableEq, Repr

/-- Outcome of `AsValue`: a coerced value, a returned error, or a
runtime panic. -/
inductive AVOut where
  | okv (v : Lit)
  | fail (e : OpError)
  | crash
deriving DecidableEq, Repr

def goParseBool (s : String) : Option Bool :=
  if s = "1" ∨ s = "t" ∨ s = "T" ∨ s = "true" ∨ s = "TRUE" ∨ s = "True" then
    some true
  else if s = "0" ∨ s = "f" ∨ s = "F" ∨ s = "false" ∨ s = "FALSE" ∨ s = "False" then
    some false
  else none

def digitVal (c : Char) : Option Nat :=
  if '0' ≤ c ∧ c ≤ '9' then some (c.toNat - 48)
  else if 'a' ≤ c ∧ c ≤ 'z' then some (c.toNat - 87)
  else if 'A' ≤ c ∧ c ≤ 'Z' then some (c.toNat - 55)
  else none

def parseDigitsAux (base : Nat) : List Char → Nat → Option Nat
  | [], acc => some acc
  | c :: rest, acc =>
    match digitVal c with
    | some d => if d < base then parseDigitsAux base rest (acc * base + d) else none
    | none => none

def parseDigits (base : Nat) (cs : List Char) : Option Nat :=
  if cs.isEmpty then none else parseDigitsAux base cs 0

/-- `strconv.ParseInt(s, 0, 64)`: the parsed (range-clamped) value and
whether the returned error was nil. -/
def goParseInt (s : String) : Int × Bool :=
  let cs := s.toList
  let signed : Bool × List Char :=
    match cs with
    | '-' :: rest => (true, rest)
    | '+' :: rest => (false, rest)
    | rest => (false, rest)
  let based : Nat × List Char :=
    match signed.2 with
    | '0' :: 'x' :: rest => (16, rest)
    | '0' :: 'X' :: rest => (16, rest)
    | '0' :: 'b' :: rest => (2, rest)
    | '0' :: 'B' :: rest => (2, rest)
    | '0' :: 'o' :: rest => (8, rest)
    | '0' :: 'O' :: rest => (8, rest)
    | '0' :: rest => if rest.isEmpty then (10, ['0']) else (8, rest)
    | rest => (10, rest)
  match parseDigits based.1 based.2 with
  | none => (0, false)
  | some n =>
    if signed.1 then
      if (n : Int) ≤ 9223372036854775808 then (-(n : Int), true)
      else (-9223372036854775808, false)
    else
      if (n : Int) ≤ 9223372036854775807 then ((n : Int), true)
      else (9223372036854775807, false)

def digitChar (n : Nat) : Char :=
  "0123456789abcdefghijklmnopqrstuvwxyz".toList.getD n 'x'

def natToDigitsAux : Nat → Nat → Nat → List Char → List Char
  | 0, _, _, acc => acc
  | Nat.succ fuel, base, n, acc =>
      if n < base then digitChar n :: acc
      else natToDigitsAux fuel base (n / base) (digitChar (n % base) :: acc)

/-- Base-`base` digits of `n` (fuel-structured; `n + 1` steps suffice
for the bases 2..36 `FormatInt` accepts). -/
def natToDigits (base : Nat) (n : Nat) (acc : List Char) : List Char :=
  natToDigitsAux (n + 1) base n acc

/-- `strconv.FormatInt(i, base)`: text in the given base, or the
"illegal AppendInt/FormatInt base" panic when base is outside 2..36. -/
def goFormatInt (n : Int) (base : Nat) : Option String :=
  if base < 2 ∨ 36 < base then none
  else some ((if n < 0 then "-" else "")
    ++ String.mk (natToDigits base n.natAbs []))

/-- `Field.AsValue`.  Composite literals are rejected outright; a
pointer literal is dereferenced once.  Note two faithful slips of the
source: the STRING-field / int-literal arm calls `FormatInt(n, 0)`,
which panics on the illegal base 0, and the INT-field / string-literal
arm declares `n, err := strconv.ParseInt(...)` with `:=`, shadowing the
named return `err`, so the parse failure is dropped and the (clamped or
zero) value is returned with a nil error. -/
def asValue (f : Field) (obj : Lit) : AVOut :=
  match obj with
  | .lstruct => AVOut.fail OpError.predicateValue
  | .lslice => AVOut.fail OpError.predicateValue
  | .lmap => AVOut.fail OpError.predicateValue
  | _ =>
    let val := match obj with
      | .lptr v => v
      | v => v
    match f.kind with
    | Kind.kstr =>
      match val with
      | .lstr s => AVOut.okv (.lstr s)
      | .lbool b => AVOut.okv (.lstr (if b then "true" else "false"))
      | .lint n =>
        match goFormatInt n 0 with
        | some s => AVOut.okv (.lstr s)
        | none => AVOut.crash
      | _ => AVOut.fail OpError.predicateValue
    | Kind.kbool =>
      match val with
      | .lstr s =>
        match goParseBool s with
        | some b => AVOut.okv (.lbool b)
        | none => AVOut.fail (OpError.wrapped (GoError.other "ParseBool"))
      | .lbool b => AVOut.okv (.lbool b)
      | .lint n => AVOut.okv (.lbool (decide (n ≠ 0)))
      | _ => AVOut.fail OpError.predicateValue
    | Kind.kint =>
      match val with
      | .lstr s => AVOut.okv (.lint (goParseInt s).1)
      | .lbool b => AVOut.okv (.lint (if b then 1 else 0))
      | .lint n => AVOut.okv (.lint n)
      | _ => AVOut.fail OpError.predicateValue
    | Kind.kjson => AVOut.fail OpError.fieldType

/-! ## Structural lemmas about the embedding -/

theorem live_pull (f : Field) : (Field.pull f).live = f.live := by
  rcases f with ⟨n, t, v, ss, si, ip⟩
  cases v with
  | vbool b => cases b <;> rfl
  | vstr s => rfl
  | vint m => rfl
  | vstruct j => rfl
  | vslice j => rfl
  | vmap j => rfl

theorem tag_pull (f : Field) : (Field.pull f).tag = f.tag := by
  rcases f with ⟨n, t, v, ss, si, ip⟩
  cases v with
  | vbool b => cases b <;> rfl
  | vstr s => rfl
  | vint m => rfl
  | vstruct j => rfl
  | vslice j => rfl
  | vmap j => rfl

theorem tag_push (f : Field) : (Field.push f).tag = f.tag := by
  rcases f with ⟨n, t, v, ss, si, ip⟩
  cases v with
  | vbool b => rfl
  | vstr s => rfl
  | vint m => rfl
  | vstruct j => by_cases h : ss = "" <;> simp [Field.push, h]
  | vslice j => by_cases h : ss = "" <;> simp [Field.push, h]
  | vmap j => by_cases h : ss = "" <;> simp [Field.push, h]

theorem isPk_pull (f : Field) : (Field.pull f).isPk = f.isPk := by
  unfold Field.isPk
  rw [tag_pull]

theorem isPk_push (f : Field) : (Field.push f).isPk = f.isPk := by
  unfold Field.isPk
  rw [tag_push]

theorem isPk_pullIfKey (f : Field) : (pullIfKey f).isPk = f.isPk := by
  unfold pullIfKey
  by_cases h : f.isKey <;> simp [h, isPk_pull]

theorem live_pullIfKey (f : Field) : (pullIfKey f).live = f.live := by
  unfold pullIfKey
  by_cases h : f.isKey <;> simp [h, live_pull]

/-- The first pk field carries the `pk` option. -/
theorem findPk_isPk : ∀ (fs : List Field) (pk : Field),
    findPk fs = some pk → pk.isPk = true := by
  intro fs
  induction fs with
  | nil => intro pk h; exact absurd h (by simp [findPk])
  | cons f rest ih =>
    intro pk h
    by_cases hf : f.isPk
    · simp [findPk, hf] at h
      rw [← h]; exact hf
    · simp [findPk, hf] at h
      exact ih pk h

/-- The first pk field is a member of the list. -/
theorem findPk_mem : ∀ (fs : List Field) (pk : Field),
    findPk fs = some pk → pk ∈ fs := by
  intro fs
  induction fs with
  | nil => intro pk h; exact absurd h (by simp [findPk])
  | cons f rest ih =>
    intro pk h
    by_cases hf : f.isPk
    · simp [findPk, hf] at h
      rw [← h]
      exact List.mem_cons_self f rest
    · simp [findPk, hf] at h
      exact List.mem_cons_of_mem f (ih pk h)

/-- Writing the found pk field back is a no-op (the Go code mutates in
place, so reading and re-storing the same struct changes nothing). -/
theorem updPk_self : ∀ (fs : List Field) (pk : Field),
    findPk fs = some pk → updPk fs pk = fs := by
  intro fs
  induction fs with
  | nil => intro pk h; rfl
  | cons f rest ih =>
    intro pk h
    by_cases hf : f.isPk
    · simp [findPk, hf] at h
      subst h
      simp [updPk, hf]
    · simp [findPk, hf] at h
      simp [updPk, hf, ih pk h]

/-- Replacing the first pk field with another pk-tagged field makes the
replacement the first pk field. -/
theorem findPk_updPk : ∀ (fs : List Field) (pk x : Field),
    findPk fs = some pk → x.isPk = true → findPk (updPk fs x) = some x := by
  intro fs
  induction fs with
  | nil => intro pk x h _; exact absurd h (by simp [findPk])
  | cons f rest ih =>
    intro pk x h hx
    by_cases hf : f.isPk
    · simp [updPk, hf, findPk, hx]
    · simp [findPk, hf] at h
      simp [updPk, hf, findPk, ih pk x h hx]

/-- Pulling the key fields in place does not move the first pk field. -/
theorem findPk_map_pullIfKey : ∀ (fs : List Field),
    findPk (fs.map pullIfKey) = (findPk fs).map pullIfKey := by
  intro fs
  induction fs with
  | nil => rfl
  | cons f rest ih =>
    by_cases hf : f.isPk
    · simp [findPk, isPk_pullIfKey, hf]
    · simp [findPk, isPk_pullIfKey, hf, ih]

theorem isPk_setStaging (f : Field) (d : String) :
    ({ f with stagingStr := d } : Field).isPk = f.isPk := rfl

/-- `SetPk` (with its error discarded at every call site) neither adds
nor removes the pk field. -/
theorem findPk_isSome_afterSetPk (fs : List Field) :
    (findPk (fieldsAfterSetPk fs)).isSome = (findPk fs).isSome := by
  unfold fieldsAfterSetPk setPkGo
  cases hf : findPk fs with
  | none => simp [hf]
  | some pk =>
    have hpk : pk.isPk = true := findPk_isPk fs pk hf
    have h1 : (Field.pull pk).isPk = true := by rw [isPk_pull]; exact hpk
    have h2 : findPk (updPk fs (Field.pull pk)) = some (Field.pull pk) :=
      findPk_updPk fs pk _ hf h1
    have h3 : findPk ((updPk fs (Field.pull pk)).map pullIfKey)
        = some (pullIfKey (Field.pull pk)) := by
      rw [findPk_map_pullIfKey, h2]; rfl
    have h4 : (pullIfKey (Field.pull pk)).isPk = true := by
      rw [isPk_pullIfKey]; exact h1
    have h5 : ∀ d : String,
        ({ pullIfKey (Field.pull pk) with stagingStr := d } : Field).push.isPk = true := by
      intro d
      rw [isPk_push, isPk_setStaging]
      exact h4
    dsimp only
    cases hk : pk.kind with
    | kstr =>
      by_cases hg : (Field.pull pk).stagingStr = ""
      · have h6 := findPk_updPk _ _ _ h3
          (h5 (hexStr (sha1 (hashInput ((updPk fs (Field.pull pk)).map pullIfKey)))))
        simp [hg, h3, h6]
      · simp [hg, h2]
    | kint => simp [hf]
    | kbool => simp [hf]
    | kjson => simp [hf]

theorem isKey_pull (f : Field) : (Field.pull f).isKey = f.isKey := by
  unfold Field.isKey
  rw [tag_pull]

theorem isKey_pullIfKey (f : Field) : (pullIfKey f).isKey = f.isKey := by
  unfold pullIfKey
  by_cases h : f.isKey <;> simp [h, isKey_pull]

theorem foldl_append_keyContrib (l : List Field) (acc : List Nat) :
    l.foldl (fun a f => a ++ keyContrib f) acc = acc ++ (l.map keyContrib).flatten := by
  induction l generalizing acc with
  | nil => simp
  | cons f rest ih => simp [ih, List.append_assoc]

/-- Streaming the per-field writes into the hash equals hashing the
concatenation of the per-field contributions. -/
theorem hashInput_flatten (fs : List Field) :
    hashInput fs = ((fs.filter Field.isKey).map keyContrib).flatten := by
  unfold hashInput
  rw [foldl_append_keyContrib]
  simp

/-- A freshly derived key field, once pulled, contributes exactly the
spec-level bytes of its record value (the zeroed staging makes a false
boolean contribute the encoding of 0). -/
theorem contrib_mk (a : Attr) (hk : hasOpt a.tag "key" = true) :
    keyContrib (pullIfKey (mkField a)) = specContribV a.val := by
  rcases a with ⟨nm, tg, v⟩
  simp only [Attr.tag] at hk
  cases v with
  | vbool b =>
      cases b <;>
        simp [pullIfKey, Field.isKey, mkField, hk, keyContrib, Field.pull, Field.kind,
          kindOf, specContribV]
  | vstr s =>
      simp [pullIfKey, Field.isKey, mkField, hk, keyContrib, Field.pull, Field.kind,
        kindOf, specContribV]
  | vint n =>
      simp [pullIfKey, Field.isKey, mkField, hk, keyContrib, Field.pull, Field.kind,
        kindOf, specContribV]
  | vstruct j =>
      simp [pullIfKey, Field.isKey, mkField, hk, keyContrib, Field.pull, Field.kind,
        kindOf, specContribV]
  | vslice j =>
      simp [pullIfKey, Field.isKey, mkField, hk, keyContrib, Field.pull, Field.kind,
        kindOf, specContribV]
  | vmap j =>
      simp [pullIfKey, Field.isKey, mkField, hk, keyContrib, Field.pull, Field.kind,
        kindOf, specContribV]

theorem keyContribs_mkFields : ∀ (attrs : List Attr),
    (((attrs.map mkField).map pullIfKey).filter Field.isKey).map keyContrib
      = ((attrs.filter (fun a => hasOpt a.tag "key")).map Attr.val).map specContribV := by
  intro attrs
  induction attrs with
  | nil => rfl
  | cons a rest ih =>
    have hkey : (pullIfKey (mkField a)).isKey = hasOpt a.tag "key" := by
      rw [isKey_pullIfKey]; rfl
    by_cases hk : hasOpt a.tag "key"
    · simp only [List.map_cons, List.filter_cons]
      rw [hkey]
      simp only [hk, if_pos, List.map_cons, contrib_mk a hk]
      rw [ih]
    · simp only [List.map_cons, List.filter_cons]
      rw [hkey]
      simp only [hk, Bool.false_eq_true, if_neg, ite_false]
      rw [ih]

/-- The bytes `SetPk` hashes for a freshly derived field list are the
spec-level key bytes of the record. -/
theorem hashInput_spec (r : Rec) :
    hashInput ((mkFields r).map pullIfKey) = specInput r := by
  rw [hashInput_flatten]
  unfold specInput keyVals mkFields
  rw [keyContribs_mkFields]

theorem pull_eq_self_of_empty (pkf : Field) (hempty : pkf.live = Value.vstr "")
    (hss : pkf.stagingStr = "") : Field.pull pkf = pkf := by
  rcases pkf with ⟨nm, tg, v, ss, si, ip⟩
  simp only [] at hempty hss
  subst hempty
  subst hss
  rfl

theorem push_set_vstr (f : Field) (s d : String) (h : f.live = Value.vstr s) :
    (({ f with stagingStr := d } : Field).push).live = Value.vstr d := by
  rcases f with ⟨nm, tg, v, ss, si, ip⟩
  simp only [] at h
  subst h
  rfl

/-- What `SetPk` does on a record whose pk field is a string holding the
empty value: every key field is pulled in place and the pk field ends up
carrying the spec-level digest in both its staging and live cell. -/
theorem setPk_pk_digest (r : Rec) (pkf : Field)
    (hpk : findPk (mkFields r) = some pkf)
    (hempty : pkf.live = Value.vstr "") :
    setPkGo (mkFields r)
      = Except.ok (updPk ((mkFields r).map pullIfKey)
          (({ pullIfKey pkf with stagingStr := specPk r } : Field).push))
    ∧ findPk (updPk ((mkFields r).map pullIfKey)
          (({ pullIfKey pkf with stagingStr := specPk r } : Field).push))
        = some (({ pullIfKey pkf with stagingStr := specPk r } : Field).push)
    ∧ ((({ pullIfKey pkf with stagingStr := specPk r } : Field).push)).live
        = Value.vstr (specPk r) := by
  have hmem := findPk_mem _ _ hpk
  obtain ⟨a, hmm, hEq⟩ := List.mem_map.mp hmem
  have hss : pkf.stagingStr = "" := by rw [← hEq]; rfl
  have hpull : Field.pull pkf = pkf := pull_eq_self_of_empty pkf hempty hss
  have hkind : pkf.kind = Kind.kstr := by unfold Field.kind; rw [hempty]; rfl
  have h3 : findPk ((mkFields r).map pullIfKey) = some (pullIfKey pkf) := by
    rw [findPk_map_pullIfKey, hpk]; rfl
  have hpkx : (({ pullIfKey pkf with stagingStr := specPk r } : Field).push).isPk = true := by
    rw [isPk_push, isPk_setStaging, isPk_pullIfKey]
    exact findPk_isPk _ _ hpk
  refine ⟨?_, findPk_updPk _ _ _ h3 hpkx,
    push_set_vstr _ "" _ (by rw [live_pullIfKey]; exact hempty)⟩
  unfold setPkGo
  rw [hpk]
  dsimp only
  rw [hkind]
  dsimp only
  rw [hpull, updPk_self _ _ hpk, hss]
  simp only [ne_eq, not_true_eq_false, if_false, ite_false]
  rw [hashInput_spec, h3]
  rfl

/-! ## Claim theorems -/

/-- C1: for every record whose pk field is STRING category and empty,
`SetPk` assigns to the pk field the lowercase hexadecimal SHA-1 digest
of the key fields processed in declaration order (STRING keys
contributing their UTF-8 bytes, INT/BOOL keys the big-endian 8-byte
encoding of the 64-bit staging value, i.e. 1/0 for booleans of a freshly
derived field); the same key values always produce the same pk. -/
theorem setPk_synthesizes_sha1_pk (r : Rec) (pkf : Field)
    (hpk : findPk (mkFields r) = some pkf)
    (hempty : pkf.live = Value.vstr "") :
    (∃ fs' pk', setPkGo (mkFields r) = Except.ok fs'
      ∧ findPk fs' = some pk'
      ∧ pk'.live = Value.vstr (specPk r))
    ∧ ∀ r₂, keyVals r₂ = keyVals r → specPk r₂ = specPk r := by
  obtain ⟨h1, h2, h3⟩ := setPk_pk_digest r pkf hpk hempty
  refine ⟨⟨_, _, h1, h2, h3⟩, ?_⟩
  intro r₂ hkv
  unfold specPk specInput
  rw [hkv]

/-- Witness for C1: the `{ID pk, Name key = "a", Kind key = "k"}` record
gets the digest of the concatenated key bytes as its pk. -/
theorem setPk_synthesizes_sha1_pk_witness :
    (∃ fs' pk', setPkGo (mkFields ⟨"M", [⟨"ID", "pk", Value.vstr ""⟩,
        ⟨"Name", "key", Value.vstr "a"⟩, ⟨"Kind", "key", Value.vstr "k"⟩]⟩) = Except.ok fs'
      ∧ findPk fs' = some pk'
      ∧ pk'.live = Value.vstr (specPk ⟨"M", [⟨"ID", "pk", Value.vstr ""⟩,
          ⟨"Name", "key", Value.vstr "a"⟩, ⟨"Kind", "key", Value.vstr "k"⟩]⟩))
    ∧ ∀ r₂, keyVals r₂ = keyVals ⟨"M", [⟨"ID", "pk", Value.vstr ""⟩,
          ⟨"Name", "key", Value.vstr "a"⟩, ⟨"Kind", "key", Value.vstr "k"⟩]⟩ →
        specPk r₂ = specPk ⟨"M", [⟨"ID", "pk", Value.vstr ""⟩,
          ⟨"Name", "key", Value.vstr "a"⟩, ⟨"Kind", "key", Value.vstr "k"⟩]⟩ :=
  setPk_synthesizes_sha1_pk _ ⟨"ID", "pk", Value.vstr "", "", 0, false⟩ rfl rfl

set_option maxRecDepth 40000 in
/-- Scenario S1 of the spec, checked against the embedded SHA-1: the pk
synthesized for key values `"a"`, `"k"` is the SHA-1 digest of the bytes
of `"ak"` (reference value computed with an independent
implementation). -/
theorem specPk_scenario1 :
    specPk ⟨"M", [⟨"ID", "pk", Value.vstr ""⟩, ⟨"Name", "key", Value.vstr "a"⟩,
        ⟨"Kind", "key", Value.vstr "k"⟩]⟩
      = "0474aee45985f5ae829f53849df476200e876990" := by decide

/-- C2 counterexample: a `sqlite3` constraint violation whose extended
code 2067 marks a UNIQUE (not PRIMARY KEY) collision is *not*
propagated wrapped — Insert recovers it by retrying as Update, which
here succeeds. -/
theorem insert_retry_counterexample :
    insertOp ⟨Except.error (GoError.sqlite3 19 2067), Except.ok ⟨Except.ok 1⟩,
        Except.ok ⟨Except.ok 1⟩, Except.ok []⟩
        ⟨"S", [⟨"ID", "pk", Value.vstr "x"⟩, ⟨"Name", "key", Value.vstr "a"⟩]⟩
      = Except.ok ()
    ∧ insertOp ⟨Except.error (GoError.sqlite3 19 2067), Except.ok ⟨Except.ok 1⟩,
        Except.ok ⟨Except.ok 1⟩, Except.ok []⟩
        ⟨"S", [⟨"ID", "pk", Value.vstr "x"⟩, ⟨"Name", "key", Value.vstr "a"⟩]⟩
      ≠ Except.error (OpError.wrapped (GoError.sqlite3 19 2067)) := by
  exact ⟨rfl, by decide⟩

/-- C2 amended: Insert retries as Update on *any* driver error whose
`sqlite3.Error` code is `ErrConstraint` (the extended code telling PK
from UNIQUE apart is not inspected); only non-constraint driver errors
propagate wrapped. -/
theorem insert_retry_amended (db : DBOracle) (r : Rec) (e : GoError)
    (h : db.execInsert = Except.error e) :
    (isConstraintErr e = true → insertOp db r = updateOp db r)
    ∧ (isConstraintErr e = false → insertOp db r = Except.error (OpError.wrapped e)) := by
  unfold insertOp
  rw [h]
  constructor <;> intro hc <;> simp [hc]

/-- Witness for C2 amended: the UNIQUE-collision oracle makes Insert
coincide with Update, and a non-sqlite3 error propagates wrapped. -/
theorem insert_retry_amended_witness :
    (insertOp ⟨Except.error (GoError.sqlite3 19 2067), Except.ok ⟨Except.ok 1⟩,
        Except.ok ⟨Except.ok 1⟩, Except.ok []⟩
        ⟨"W", [⟨"ID", "pk", Value.vstr "y"⟩]⟩
      = updateOp ⟨Except.error (GoError.sqlite3 19 2067), Except.ok ⟨Except.ok 1⟩,
        Except.ok ⟨Except.ok 1⟩, Except.ok []⟩
        ⟨"W", [⟨"ID", "pk", Value.vstr "y"⟩]⟩)
    ∧ insertOp ⟨Except.error (GoError.other "disk"), Except.ok ⟨Except.ok 1⟩,
        Except.ok ⟨Except.ok 1⟩, Except.ok []⟩
        ⟨"W", [⟨"ID", "pk", Value.vstr "y"⟩]⟩
      = Except.error (OpError.wrapped (GoError.other "disk")) :=
  ⟨(insert_retry_amended _ _ (GoError.sqlite3 19 2067) rfl).1 rfl,
   (insert_retry_amended _ _ (GoError.other "disk") rfl).2 rfl⟩

/-- C3 counterexample: with two distinct `unique` groups, two admissible
iteration orders of the Go map (`range` order is unspecified and
randomized) produce different DDL byte strings, so the DDL is not
deterministic across runs. -/
theorem ddl_map_order_counterexample :
    (["a", "b"] : List String).Perm
        (uniqueKeys (mkFields ⟨"T", [⟨"Id", "pk", Value.vstr "x"⟩,
          ⟨"A", "unique(a)", Value.vstr ""⟩, ⟨"B", "unique(b)", Value.vstr ""⟩]⟩))
    ∧ (["b", "a"] : List String).Perm
        (uniqueKeys (mkFields ⟨"T", [⟨"Id", "pk", Value.vstr "x"⟩,
          ⟨"A", "unique(a)", Value.vstr ""⟩, ⟨"B", "unique(b)", Value.vstr ""⟩]⟩))
    ∧ ddlGo ⟨"T", [⟨"Id", "pk", Value.vstr "x"⟩, ⟨"A", "unique(a)", Value.vstr ""⟩,
          ⟨"B", "unique(b)", Value.vstr ""⟩]⟩ ["a", "b"]
      ≠ ddlGo ⟨"T", [⟨"Id", "pk", Value.vstr "x"⟩, ⟨"A", "unique(a)", Value.vstr ""⟩,
          ⟨"B", "unique(b)", Value.vstr ""⟩]⟩ ["b", "a"] :=
  ⟨List.Perm.refl _, List.Perm.swap "a" "b" [], by decide⟩

/-- C3 amended: the generated DDL is deterministic (independent of the
map iteration order) for record types declaring at most one unique
constraint group; the column clauses and FK clauses are order-free and
only the relative order of multiple UNIQUE clauses varies. -/
theorem ddl_deterministic_one_group (r : Rec) (o₁ o₂ : List String)
    (h₁ : o₁.Perm (uniqueKeys (mkFields r)))
    (h₂ : o₂.Perm (uniqueKeys (mkFields r)))
    (hlen : (uniqueKeys (mkFields r)).length ≤ 1) :
    ddlGo r o₁ = ddlGo r o₂ := by
  have ho : o₁ = o₂ := by
    cases hu : uniqueKeys (mkFields r) with
    | nil =>
        rw [hu] at h₁ h₂
        rw [List.perm_nil.mp h₁, List.perm_nil.mp h₂]
    | cons k rest =>
        cases rest with
        | nil =>
            rw [hu] at h₁ h₂
            rw [List.perm_singleton.mp h₁, List.perm_singleton.mp h₂]
        | cons k2 rest2 =>
            rw [hu] at hlen
            simp at hlen
  rw [ho]

/-- Witness for C3 amended: a record whose two unique-tagged fields
share one group has order-independent DDL. -/
theorem ddl_deterministic_one_group_witness :
    ddlGo ⟨"T", [⟨"Id", "pk", Value.vstr "x"⟩, ⟨"A", "unique(g)", Value.vstr ""⟩,
        ⟨"B", "unique(g)", Value.vstr ""⟩]⟩ ["g"]
      = ddlGo ⟨"T", [⟨"Id", "pk", Value.vstr "x"⟩, ⟨"A", "unique(g)", Value.vstr ""⟩,
        ⟨"B", "unique(g)", Value.vstr ""⟩]⟩ ["g"] :=
  ddl_deterministic_one_group _ ["g"] ["g"] (List.Perm.refl _) (List.Perm.refl _)
    (by decide)

/-- C4 counterexample: `Pull` on a false boolean does not reset the
staging int — prior content 5 survives, contradicting "sets … to 0 …
regardless of the staging cell's prior content". -/
theorem pull_bool_false_counterexample :
    (Field.pull ⟨"B", "", Value.vbool false, "", 5, false⟩).stagingInt = 5
    ∧ (Field.pull ⟨"B", "", Value.vbool false, "", 5, false⟩).stagingInt ≠ 0 :=
  ⟨rfl, by decide⟩

/-- C4 amended: `Pull` sets the staging int to 1 when the boolean is
true and leaves it unchanged when false (hence 0 exactly when the field
descriptor is freshly derived, whose staging cells start at zero). -/
theorem pull_bool_amended (f : Field) (b : Bool) (h : f.live = Value.vbool b) :
    (b = true → (Field.pull f).stagingInt = 1)
    ∧ (b = false → (Field.pull f).stagingInt = f.stagingInt) := by
  rcases f with ⟨nm, tg, v, ss, si, ip⟩
  simp only [] at h
  subst h
  cases b <;> simp [Field.pull]

/-- Witness for C4 amended: a freshly derived true boolean stages 1. -/
theorem pull_bool_amended_witness :
    (Field.pull ⟨"B", "", Value.vbool true, "", 0, false⟩).stagingInt = 1 :=
  (pull_bool_amended _ true rfl).1 rfl

/-- C5 (code bug): for an INT-category field and the unparsable literal
`"abc"`, `AsValue` returns value 0 with a *nil* error — the
`n, err := strconv.ParseInt(...)` short declaration shadows the named
return `err`, so the coercion failure is silently dropped instead of
surfacing (`PredicateValueErr` or otherwise). -/
theorem asValue_int_parse_error_swallowed :
    asValue (mkField ⟨"Age", "", Value.vint 0⟩) (Lit.lstr "abc") = AVOut.okv (Lit.lint 0)
    ∧ ∀ e, asValue (mkField ⟨"Age", "", Value.vint 0⟩) (Lit.lstr "abc") ≠ AVOut.fail e := by
  refine ⟨rfl, fun e h => ?_⟩
  exact AVOut.noConfusion (h : AVOut.okv (Lit.lint 0) = AVOut.fail e)

/-- C6 (code bug): for a STRING-category field and any signed-integer
literal, `AsValue` calls `strconv.FormatInt(n, 0)`; base 0 is illegal
and panics at runtime, so no decimal text is ever returned. -/
theorem asValue_string_int_panics :
    asValue (mkField ⟨"Name", "", Value.vstr ""⟩) (Lit.lint 5) = AVOut.crash
    ∧ ∀ (nm tg s : String) (n : Int),
        asValue (mkField ⟨nm, tg, Value.vstr s⟩) (Lit.lint n) = AVOut.crash :=
  ⟨rfl, fun _ _ _ _ => rfl⟩

/-- C7: when the driver reports zero affected rows, Update returns
`NotFound` while Delete returns success, for every model with a pk
field. -/
theorem update_notfound_delete_ok (r : Rec) (db : DBOracle)
    (hpk : (findPk (mkFields r)).isSome = true)
    (hu : db.execUpdate = Except.ok ⟨Except.ok 0⟩)
    (hd : db.execDelete = Except.ok ⟨Except.ok 0⟩) :
    updateOp db r = Except.error OpError.notFound
    ∧ deleteOp db r = Except.ok () := by
  have hpk' : (findPk (fieldsAfterSetPk (mkFields r))).isSome = true := by
    rw [findPk_isSome_afterSetPk]; exact hpk
  obtain ⟨pk, hpkeq⟩ := Option.isSome_iff_exists.mp hpk'
  unfold updateOp deleteOp
  dsimp only
  rw [hpkeq, hu, hd]
  exact ⟨rfl, rfl⟩

/-- Witness for C7: a concrete model and zero-rows oracle. -/
theorem update_notfound_delete_ok_witness :
    updateOp ⟨Except.ok ⟨Except.ok 0⟩, Except.ok ⟨Except.ok 0⟩, Except.ok ⟨Except.ok 0⟩,
        Except.ok []⟩ ⟨"S", [⟨"ID", "pk", Value.vstr "x"⟩]⟩
      = Except.error OpError.notFound
    ∧ deleteOp ⟨Except.ok ⟨Except.ok 0⟩, Except.ok ⟨Except.ok 0⟩, Except.ok ⟨Except.ok 0⟩,
        Except.ok []⟩ ⟨"S", [⟨"ID", "pk", Value.vstr "x"⟩]⟩
      = Except.ok () :=
  update_notfound_delete_ok ⟨"S", [⟨"ID", "pk", Value.vstr "x"⟩]⟩
    ⟨Except.ok ⟨Except.ok 0⟩, Except.ok ⟨Except.ok 0⟩, Except.ok ⟨Except.ok 0⟩,
      Except.ok []⟩ rfl rfl rfl

/-- C8: commit/rollback with a token that is not the current in-flight
transaction return `TxInvalidError` and leave the client state
unchanged; with the valid token the writer lock is released and the
transaction cleared even when the underlying commit/rollback errs, and
that error is surfaced unchanged. -/
theorem commit_rollback_token (st : ClientState) (tok : Nat) (res : Except GoError Unit) :
    ((st.tx = none ∨ st.tx ≠ some tok) →
      commitOp st tok res = (Except.error TxErr.txInvalid, st)
      ∧ rollbackOp st tok res = (Except.error TxErr.txInvalid, st))
    ∧ (st.tx = some tok →
      commitOp st tok res = (res.mapError TxErr.driver, ⟨none, false⟩)
      ∧ rollbackOp st tok res = (res.mapError TxErr.driver, ⟨none, false⟩)) := by
  obtain ⟨tx, wl⟩ := st
  cases tx with
  | none =>
      refine ⟨fun _ => ⟨rfl, rfl⟩, fun h => ?_⟩
      exact Option.noConfusion (h : (none : Option Nat) = some tok)
  | some cur =>
      by_cases hc : cur = tok
      · subst hc
        refine ⟨fun h => ?_, fun _ => ?_⟩
        · exfalso
          rcases h with h | h
          · exact Option.noConfusion (h : some cur = none)
          · exact h rfl
        · constructor
          · unfold commitOp
            simp
          · unfold rollbackOp
            simp
      · refine ⟨fun _ => ?_, fun h => ?_⟩
        · constructor
          · unfold commitOp
            simp [hc]
          · unfold rollbackOp
            simp [hc]
        · exact absurd (Option.some.inj (h : some cur = some tok)) hc

/-- Witness for C8: a stale token is rejected with the state intact; the
valid token clears the transaction and releases the writer lock while
surfacing the commit error. -/
theorem commit_rollback_token_witness :
    commitOp ⟨some 1, true⟩ 2 (Except.ok ())
      = (Except.error TxErr.txInvalid, ⟨some 1, true⟩)
    ∧ commitOp ⟨some 1, true⟩ 1 (Except.error (GoError.other "boom"))
      = (Except.error (TxErr.driver (GoError.other "boom")), ⟨none, false⟩) :=
  ⟨((commit_rollback_token ⟨some 1, true⟩ 2 (Except.ok ())).1 (Or.inr (by decide))).1,
   ((commit_rollback_token ⟨some 1, true⟩ 1 (Except.error (GoError.other "boom"))).2 rfl).1⟩

/-- C9 (code bug): an int-typed pk makes `SetPk` return `GenPkTypeErr`,
but every table operation calls `t.SetPk(fields)` discarding the result,
so Insert/Update/Delete/Get all proceed and succeed — the error is
silently swallowed, never surfaced. -/
theorem genPkTypeErr_swallowed :
    setPkGo (mkFields ⟨"N", [⟨"ID", "pk", Value.vint 7⟩, ⟨"Name", "key", Value.vstr "a"⟩]⟩)
      = Except.error OpError.genPkType
    ∧ insertOp ⟨Except.ok ⟨Except.ok 1⟩, Except.ok ⟨Except.ok 1⟩, Except.ok ⟨Except.ok 1⟩,
        Except.ok [Cell.ci 7, Cell.cs "a"]⟩
        ⟨"N", [⟨"ID", "pk", Value.vint 7⟩, ⟨"Name", "key", Value.vstr "a"⟩]⟩ = Except.ok ()
    ∧ updateOp ⟨Except.ok ⟨Except.ok 1⟩, Except.ok ⟨Except.ok 1⟩, Except.ok ⟨Except.ok 1⟩,
        Except.ok [Cell.ci 7, Cell.cs "a"]⟩
        ⟨"N", [⟨"ID", "pk", Value.vint 7⟩, ⟨"Name", "key", Value.vstr "a"⟩]⟩ = Except.ok ()
    ∧ deleteOp ⟨Except.ok ⟨Except.ok 1⟩, Except.ok ⟨Except.ok 1⟩, Except.ok ⟨Except.ok 1⟩,
        Except.ok [Cell.ci 7, Cell.cs "a"]⟩
        ⟨"N", [⟨"ID", "pk", Value.vint 7⟩, ⟨"Name", "key", Value.vstr "a"⟩]⟩ = Except.ok ()
    ∧ ∃ fs, getOp ⟨Except.ok ⟨Except.ok 1⟩, Except.ok ⟨Except.ok 1⟩, Except.ok ⟨Except.ok 1⟩,
        Except.ok [Cell.ci 7, Cell.cs "a"]⟩
        ⟨"N", [⟨"ID", "pk", Value.vint 7⟩, ⟨"Name", "key", Value.vstr "a"⟩]⟩ = Except.ok fs :=
  ⟨rfl, rfl, rfl, rfl, ⟨_, rfl⟩⟩

/-- C10: `scan` pulls every field, and pushes staging back into live
cells only when the driver's `Scan` succeeds; on a scan error the
returned field list has every live value unchanged and the error is
returned. -/
theorem scan_error_atomic (fields : List Field) (e : GoError) :
    scanOp fields (Except.error e) = (fields.map Field.pull, some e)
    ∧ (fields.map Field.pull).map Field.live = fields.map Field.live := by
  refine ⟨rfl, ?_⟩
  rw [List.map_map]
  have hcomp : Field.live ∘ Field.pull = Field.live := funext live_pull
  rw [hcomp]

end Model
